import Mathlib

/-!
Verification of the calendar-compound model (`src/cal/compounds.rs`) and the
ISO 8601 parser (`src/parse.rs`) of the `datetime` repository.

Embedding conventions:
* Rust machine integers (`i8`, `i16`, `i32`, `i64`) are embedded as `Int`;
  where the source performs an overflowing cast (`millisecond as i16`) the
  truncation is made explicit (`castI32ToI16`).
* Fallible Rust values (`Option`, `Result`) are embedded as `Option`;
  a Rust panic (`unwrap` of a `None`/`Err`, a failed `parse`) is embedded as
  the `PResult.panic` outcome of the surrounding function.
* Strings are embedded as `String` / `List Char`; the regex character class
  `\d` is embedded as the ASCII digits `'0'..'9'` (the grammar of the spec,
  §6, which uses ABNF `DIGIT`), and each regex of the source is embedded as
  an explicit backtracking matcher that tries alternatives in the same
  preference order (greedy, leftmost alternative first) as the regex engine.
* External collaborators that are out of scope of `src/` (the primitive
  `Month`, `Year`, `LocalDate`, `LocalTime`, `LocalDateTime`, `TimeZone`
  types) are modelled from the spec; each such definition carries a
  `Modelled from the spec:` doc comment.
-/

/-- Outcome of a Rust function that may panic: either a normal return value
or a panic (an `unwrap` of an absent value, or a failed string-to-int
conversion). -/
inductive PResult (α : Type) where
  | ok : α → PResult α
  | panic : PResult α
deriving DecidableEq

/-- ASCII decimal digit test: embedding of the regex class `\d` (spec §6
uses ABNF `DIGIT` = `%x30-39`). -/
def isD (c : Char) : Bool := 48 ≤ c.toNat && c.toNat ≤ 57

/-- Numeric value of an ASCII digit character. -/
def digVal (c : Char) : Nat := c.toNat - 48

/-- Accumulator-style decimal evaluation of a digit string, as done by
Rust's `str::parse` on the digits of the input. -/
def digitsToNatAux : List Char → Nat → Nat
  | [], a => a
  | c :: r, a => digitsToNatAux r (10 * a + digVal c)

/-- Decimal value of a digit string. -/
def digitsToNat (l : List Char) : Nat := digitsToNatAux l 0

/-- Embedding of Rust's `str::parse::<iN>` for a signed integer type with
range `lo..=hi`: an optional sign followed by at least one ASCII digit,
value within range; anything else is an error (which every call site in
the source turns into a panic via `unwrap`). -/
def parseIntIn (lo hi : Int) (s : List Char) : Option Int :=
  let core : Int → List Char → Option Int := fun sign ds =>
    if ds = [] then none
    else if ds.all isD then
      let v : Int := sign * (digitsToNat ds : Int)
      if lo ≤ v then if v ≤ hi then some v else none else none
    else none
  match s with
  | [] => none
  | c :: r => if c = '+' then core 1 r else if c = '-' then core (-1) r else core 1 (c :: r)

/-- `str::parse::<i8>`. -/
def parseI8 (s : List Char) : Option Int := parseIntIn (-128) 127 s

/-- `str::parse::<i32>`. -/
def parseI32 (s : List Char) : Option Int := parseIntIn (-2147483648) 2147483647 s

/-- `str::parse::<i64>`. -/
def parseI64 (s : List Char) : Option Int := parseIntIn (-9223372036854775808) 9223372036854775807 s

/-- Embedding of `str::trim_matches('+')`: removes every leading and
trailing `'+'` character. -/
def trimPlus (s : List Char) : List Char :=
  ((s.dropWhile (fun c => c = '+')).reverse.dropWhile (fun c => c = '+')).reverse

/-- Embedding of the Rust cast `(v : i32) as i16`: truncation to the low
16 bits, reinterpreted as a signed 16-bit value. -/
def castI32ToI16 (v : Int) : Int :=
  let r := v % 65536
  if r < 32768 then r else r - 65536

/-- Regex backtracking alternative: try `a` first, fall back to `b`
(the preference order of a greedy optional group or a left-first
alternation). -/
def oalt {α : Type} (a b : Option α) : Option α :=
  match a with
  | some x => some x
  | none => b

/-- Try each element of `l` in order (regex backtracking preference order)
until the continuation succeeds. -/
def firstSome {α β : Type} : List α → (α → Option β) → Option β
  | [], _ => none
  | x :: xs, f => oalt (f x) (firstSome xs f)

/- ## Calendar model (external primitives, and `src/cal/compounds.rs`) -/

/-- Modelled from the spec: the external `Month` unit type, one of the
twelve calendar months (out of scope of `src/`, spec §3/§6). -/
inductive Month where
  | january | february | march | april | may | june
  | july | august | september | october | november | december
deriving DecidableEq

/-- Modelled from the spec: the external Gregorian month-length table
`days_in_month(month, is_leap_year)` — "the canonical Gregorian table
{31,28/29,31,30,31,30,31,31,30,31,30,31}" (spec §6). -/
def Month.days_in_month (m : Month) (leap : Bool) : Int :=
  match m with
  | .january => 31
  | .february => if leap then 29 else 28
  | .march => 31
  | .april => 30
  | .may => 31
  | .june => 30
  | .july => 31
  | .august => 31
  | .september => 30
  | .october => 31
  | .november => 30
  | .december => 31

/-- Modelled from the spec: the external "1-indexed month number → Month"
mapping `Month::from_one` (spec §4.2). It is defined on 1–12; the source
calls it in a non-fallible position, so an out-of-range argument is a
failure of the conversion, surfaced as a panic at the call site. -/
def Month.from_one (n : Int) : Option Month :=
  match n with
  | 1 => some .january
  | 2 => some .february
  | 3 => some .march
  | 4 => some .april
  | 5 => some .may
  | 6 => some .june
  | 7 => some .july
  | 8 => some .august
  | 9 => some .september
  | 10 => some .october
  | 11 => some .november
  | 12 => some .december
  | _ => none

/-- The 1-indexed number of a month (inverse of `Month.from_one`). -/
def Month.to_one (m : Month) : Int :=
  match m with
  | .january => 1
  | .february => 2
  | .march => 3
  | .april => 4
  | .may => 5
  | .june => 6
  | .july => 7
  | .august => 8
  | .september => 9
  | .october => 10
  | .november => 11
  | .december => 12

/-- Modelled from the spec: the external leap-year predicate
`is_leap_year(year)` — "divisible by 4, except centuries not divisible
by 400" (spec glossary / §4.1). -/
def is_leap_year (y : Int) : Bool :=
  (decide (y % 4 = 0) && decide (y % 100 ≠ 0)) || decide (y % 400 = 0)

/-- `YearMonth` of `src/cal/compounds.rs` (the external `Year` newtype over
`i64` is embedded as its underlying `Int`). -/
structure YearMonth where
  year : Int
  month : Month
deriving DecidableEq

/-- `YearMonth::day_count` of `src/cal/compounds.rs`:
`self.month.days_in_month(self.year.is_leap_year())`. -/
def YearMonth.day_count (ym : YearMonth) : Int :=
  ym.month.days_in_month (is_leap_year ym.year)

/-- `YearMonthDay` of `src/cal/compounds.rs` (`day: i8` embedded as `Int`). -/
structure YearMonthDay where
  year : Int
  month : Month
  day : Int
deriving DecidableEq

/-- `YearMonthDay::is_valid` of `src/cal/compounds.rs`:
`self.day >= 1 && self.day <= self.month.days_in_month(is_leap_year)`. -/
def YearMonthDay.is_valid (x : YearMonthDay) (leap : Bool) : Bool :=
  decide (1 ≤ x.day) && decide (x.day ≤ x.month.days_in_month leap)

/-- Modelled from the spec: the external validated calendar-date type
`LocalDate` (spec §3/§6). -/
structure LocalDate where
  year : Int
  month : Month
  day : Int
deriving DecidableEq

/-- Modelled from the spec: the external constructor
`Date::from_ymd(year, month, day) -> Result<Date>` (called `LocalDate::new`
by the source) — "fails if day out of range for month/year" (spec §6),
with the range rule of spec §4.1:
`1 ≤ day ≤ days_in_month(month, is_leap_year(year))`. -/
def LocalDate.new (y : Int) (m : Month) (d : Int) : Option LocalDate :=
  if 1 ≤ d ∧ d ≤ m.days_in_month (is_leap_year y) then some ⟨y, m, d⟩ else none

/-- Modelled from the spec: the external week-date conversion
`Date::from_iso_week(year, week, weekday) -> Result<Date>` (called
`LocalDate::from_weekday` by the source) — "fails if week/weekday out of
range" (spec §6). The spec leaves the successful value to the external
collaborator ("week/weekday-to-date conversion (external responsibility)",
§4.2), so the model returns a representative date; no claim depends on
which date it is. -/
def LocalDate.from_weekday (y w wd : Int) : Option LocalDate :=
  if 1 ≤ w ∧ w ≤ 53 ∧ 1 ≤ wd ∧ wd ≤ 7 then some ⟨y, Month.january, 1⟩ else none

/-- Modelled from the spec: the external time-of-day type `LocalTime`
(spec §3/§6). -/
structure LocalTime where
  hour : Int
  minute : Int
  second : Int
  millisecond : Int
deriving DecidableEq

/-- Modelled from the spec: the external constructor
`Time::from_hms_milli(hour, minute, second, millisecond) -> Result<Time>`
(called `LocalTime::hms_ms` by the source) — "fails if any field out of
canonical range (hour 0–23, minute/second 0–59, ms 0–999)" (spec §6). -/
def LocalTime.hms_ms (h m s ms : Int) : Option LocalTime :=
  if 0 ≤ h ∧ h ≤ 23 ∧ 0 ≤ m ∧ m ≤ 59 ∧ 0 ≤ s ∧ s ≤ 59 ∧ 0 ≤ ms ∧ ms ≤ 999
  then some ⟨h, m, s, ms⟩ else none

/-- Modelled from the spec: `LocalTime::hms`, the millisecond-free variant
of the time-of-day constructor. -/
def LocalTime.hms (h m s : Int) : Option LocalTime := LocalTime.hms_ms h m s 0

/-- Modelled from the spec: the external combined date-and-time type
`LocalDateTime` (spec §3). -/
structure LocalDateTime where
  date : LocalDate
  time : LocalTime
deriving DecidableEq

/-- Modelled from the spec: `LocalDateTime::from_date_time`, pairing a date
with a time-of-day (infallible, spec §3). -/
def LocalDateTime.from_date_time (d : LocalDate) (t : LocalTime) : LocalDateTime := ⟨d, t⟩

/-- Modelled from the spec: the external `TimeZone` type — "a UTC offset or
explicit UTC marker" (spec glossary); `TimeZone::UTC` and the fixed-offset
constructor `TimeZone::of_hours_and_minutes` are distinguished ("both are
numerically identical" but distinct, spec §4.2). -/
inductive TimeZone where
  | UTC : TimeZone
  | of_hours_and_minutes : Int → Int → TimeZone
deriving DecidableEq

/- ## ISO 8601 parser (`src/parse.rs`) -/

/-- Embedding of the match of `^([^T]*)T?(.*)$`: the greedy `[^T]*` group
captures everything before the first `'T'` (the whole input when there is
none), `T?` consumes that `'T'`, and `(.*)` captures the remainder. -/
def splitAtT : List Char → List Char × List Char
  | [] => ([], [])
  | c :: r =>
    if c = 'T' then ([], r)
    else
      let p := splitAtT r
      (c :: p.1, p.2)

/-- `split_iso_8601` of `src/parse.rs`: its regex `^([^T]*)T?(.*)$` matches
every input (both groups may be empty) and the capture count is always 3,
so the function always returns the two captured segments. -/
def split_iso_8601 (s : String) : Option (String × String) :=
  let p := splitAtT s.data
  some (String.mk p.1, String.mk p.2)

/-- Two ASCII digits (`\d{2}`), returning the captured characters and the
rest of the input. -/
def take2d : List Char → Option (List Char × List Char)
  | a :: b :: r => if isD a && isD b then some ([a, b], r) else none
  | _ => none

/-- Four ASCII digits (`\d{4}`). -/
def take4d : List Char → Option (List Char × List Char)
  | a :: b :: c :: d :: r =>
    if isD a && isD b && isD c && isD d then some ([a, b, c, d], r) else none
  | _ => none

/-- An optional dash (`-?`). In the date regexes a dash can only be
consumed by `-?` itself (the surrounding tokens are digit classes), so the
greedy skip needs no backtracking alternative. -/
def skipDash : List Char → List Char
  | '-' :: r => r
  | s => s

/-- Embedding of the match of the calendar-date regex
`^(\d{4})-?(\d{2})-?(\d{2})$` of `parse_iso_8601_date`, returning the
three captures (year, month, day). -/
def matchYmd (s : List Char) : Option (List Char × List Char × List Char) :=
  match take4d s with
  | none => none
  | some (y, r1) =>
    match take2d (skipDash r1) with
    | none => none
    | some (m, r2) =>
      match take2d (skipDash r2) with
      | some (d, []) => some (y, m, d)
      | _ => none

/-- Embedding of the match of the week-date regex
`^(\d{4})-W(\d{2})-(\d{1})$` of `parse_iso_8601_date`, returning the three
captures (year, week, weekday). -/
def matchWeek (s : List Char) : Option (List Char × List Char × List Char) :=
  match take4d s with
  | some (y, '-' :: 'W' :: r) =>
    match take2d r with
    | some (w, ['-', d]) => if isD d then some (y, w, [d]) else none
    | _ => none
  | _ => none

/-- All ways for `\d{0..n}` to split a greedy digit prefix off `s`, in the
backtracking preference order of a greedy bounded repetition: longest
first, down to the empty prefix (which is always last). -/
def splitsDigits : Nat → List Char → List (List Char × List Char)
  | 0, s => [([], s)]
  | _ + 1, [] => [([], [])]
  | n + 1, c :: rest =>
    if isD c then
      (splitsDigits n rest).map (fun p => (c :: p.1, p.2)) ++ [([], c :: rest)]
    else [([], c :: rest)]

/-- The tail `(\d\d)?$` of the zone regex: capture 7 (zone minute). -/
def zmTail (s : List Char) : Option (Option (List Char)) :=
  match take2d s with
  | some (t, []) => some (some t)
  | _ => if s = [] then some none else none

/-- The tail `:?(\d\d)?$` of the zone regex. -/
def colonZm (s : List Char) : Option (Option (List Char)) :=
  match s with
  | ':' :: r => oalt (zmTail r) (zmTail s)
  | _ => zmTail s

/-- The numeric-offset alternative `([+-]\d\d)?:?(\d\d)?$` of the zone
group: captures 6 (signed zone hour) and 7 (zone minute). -/
def zoneTail (s : List Char) : Option (Option (List Char) × Option (List Char)) :=
  oalt
    (match s with
     | c :: a :: b :: r =>
       if (c = '+' || c = '-') && isD a && isD b then
         (colonZm r).map (fun g7 => (some [c, a, b], g7))
       else none
     | _ => none)
    ((colonZm s).map (fun g7 => (none, g7)))

/-- The whole zone group `(?:(Z)|([+-]\d\d)?:?(\d\d)?)?$`: captures 5
(the literal-`Z` sentinel), 6 and 7. The `(Z)` alternative is preferred;
the numeric alternative with every part absent covers the absent group. -/
def zonePart (s : List Char) :
    Option (Option (List Char) × Option (List Char) × Option (List Char)) :=
  if s = ['Z'] then some (some ['Z'], none, none)
  else (zoneTail s).map (fun p => (none, p.1, p.2))

/-- The fraction group `((?:\d{1,9}))?` followed by the zone group:
captures 4 (millisecond digits), 5, 6, 7. Greedy: longer digit prefixes
are preferred, the absent capture comes last. -/
def fracZone (s : List Char) :
    Option (Option (List Char) × Option (List Char) × Option (List Char) × Option (List Char)) :=
  firstSome (splitsDigits 9 s) (fun p =>
    if p.1 = [] then (zonePart s).map (fun q => (none, q))
    else (zonePart p.2).map (fun q => (some p.1, q)))

/-- The optional dot `\.?` in front of the fraction group. -/
def dotFrac (s : List Char) :
    Option (Option (List Char) × Option (List Char) × Option (List Char) × Option (List Char)) :=
  match s with
  | '.' :: r => oalt (fracZone r) (fracZone s)
  | _ => fracZone s

/-- The second group `(?:(\d{2})\.?((?:\d{1,9}))?)?` followed by the zone
group: captures 3 (second), 4, 5, 6, 7. -/
def secFracZone (s : List Char) :
    Option (Option (List Char) × Option (List Char) × Option (List Char) ×
      Option (List Char) × Option (List Char)) :=
  oalt
    (match take2d s with
     | some (t, r) => (dotFrac r).map (fun q => (some t, q))
     | none => none)
    ((zonePart s).map (fun q => (none, none, q)))

/-- The colon `:?` after the minute group. -/
def colonSecFrac (s : List Char) :
    Option (Option (List Char) × Option (List Char) × Option (List Char) ×
      Option (List Char) × Option (List Char)) :=
  match s with
  | ':' :: r => oalt (secFracZone r) (secFracZone s)
  | _ => secFracZone s

/-- The minute group `(\d{2})?` and everything after it: captures 2
(minute), 3, 4, 5, 6, 7. -/
def minTail (s : List Char) :
    Option (Option (List Char) × Option (List Char) × Option (List Char) ×
      Option (List Char) × Option (List Char) × Option (List Char)) :=
  oalt
    (match take2d s with
     | some (t, r) => (colonSecFrac r).map (fun q => (some t, q))
     | none => none)
    ((colonSecFrac s).map (fun q => (none, q)))

/-- The colon `:?` after the hour group. -/
def colonMin (s : List Char) :
    Option (Option (List Char) × Option (List Char) × Option (List Char) ×
      Option (List Char) × Option (List Char) × Option (List Char)) :=
  match s with
  | ':' :: r => oalt (minTail r) (minTail s)
  | _ => minTail s

/-- Embedding of the match of the time/zone regex of
`parse_iso_8601_tuple`:
`^(\d{2}):?(\d{2})?:?(?:(\d{2})\.?((?:\d{1,9}))?)?(?:(Z)|([+-]\d\d)?:?(\d\d)?)?$`,
returning the seven captures `(hour, minute, second, millisecond digits,
Z sentinel, signed zone hour, zone minute)`. -/
def matchTuple (s : List Char) :
    Option (List Char × Option (List Char) × Option (List Char) × Option (List Char) ×
      Option (List Char) × Option (List Char) × Option (List Char)) :=
  match take2d s with
  | some (g1, r) => (colonMin r).map (fun q => (g1, q))
  | none => none

/-- `parse_iso_8601_tuple` of `src/parse.rs`: on a regex match, converts
the captures (with the source's sentinel defaults `"00"`, `"000"`, `"+00"`,
`"_"`) via `parse::<i8>`/`parse::<i32>` and `trim_matches('+')`; each
conversion is `unwrap`ped, so a failed conversion is a panic. The returned
tuple is `(hour, minute, second, millisecond, zone hour, zone minute,
zone marker)`. -/
def parse_iso_8601_tuple (s : String) :
    PResult (Option (Int × Int × Int × Int × Int × Int × List Char)) :=
  match matchTuple s.data with
  | none => .ok none
  | some (g1, g2, g3, g4, g5, g6, g7) =>
    match parseI8 g1, parseI8 (g2.getD ['0', '0']), parseI8 (g3.getD ['0', '0']),
        parseI32 (g4.getD ['0', '0', '0']),
        parseI8 (trimPlus (g6.getD ['+', '0', '0'])), parseI8 (g7.getD ['0', '0']) with
    | some h, some m, some sec, some ms, some zh, some zm =>
      .ok (some (h, m, sec, ms, zh, zm, g5.getD ['_']))
    | _, _, _, _, _, _ => .panic

/-- `parse_iso_8601_date` of `src/parse.rs`: tries the calendar-date regex
first, then the week-date regex; inside a matching branch every field
conversion and the date constructor are `unwrap`ped, so a failure there is
a panic, and a `None` is returned only when neither regex matches. -/
def parse_iso_8601_date (s : String) : PResult (Option LocalDate) :=
  match matchYmd s.data with
  | some (ys, ms, ds) =>
    match parseI64 ys, parseI8 ms, parseI8 ds with
    | some y, some mnum, some d =>
      match Month.from_one mnum with
      | some mo =>
        match LocalDate.new y mo d with
        | some date => .ok (some date)
        | none => .panic
      | none => .panic
    | _, _, _ => .panic
  | none =>
    match matchWeek s.data with
    | some (ys, ws, ds) =>
      match parseI64 ys, parseI64 ws, parseI64 ds with
      | some y, some w, some wd =>
        match LocalDate.from_weekday y w wd with
        | some date => .ok (some date)
        | none => .panic
      | _, _, _ => .panic
    | none => .ok none

/-- `parse_iso_8601_time` of `src/parse.rs`: the empty string yields
`LocalTime::hms(0,0,0).unwrap()`; otherwise the shared tuple extractor is
consulted and the time-of-day is built with the millisecond value cast
`as i16`. -/
def parse_iso_8601_time (s : String) : PResult (Option LocalTime) :=
  if s = "" then
    match LocalTime.hms 0 0 0 with
    | some t => .ok (some t)
    | none => .panic
  else
    match parse_iso_8601_tuple s with
    | .panic => .panic
    | .ok none => .ok none
    | .ok (some (h, m, sec, ms, _zh, _zm, _z)) =>
      .ok (LocalTime.hms_ms h m sec (castI32ToI16 ms))

/-- `parse_iso_8601_zoned` of `src/parse.rs`: splits the input
(`split_iso_8601(..).unwrap()`), evaluates the date parser and the tuple
extractor (in that order, so a panic in either propagates), and combines
their results; the zone is `TimeZone::UTC` when the `Z`-sentinel capture
equals `"Z"`, and `TimeZone::of_hours_and_minutes(zh, zm)` otherwise. -/
def parse_iso_8601_zoned (s : String) : PResult (Option (LocalDateTime × TimeZone)) :=
  match split_iso_8601 s with
  | none => .panic
  | some (ds, ts) =>
    match parse_iso_8601_date ds with
    | .panic => .panic
    | .ok dOpt =>
      match parse_iso_8601_tuple ts with
      | .panic => .panic
      | .ok tOpt =>
        match dOpt, tOpt with
        | some date, some (h, m, sec, ms, zh, zm, z) =>
          match LocalTime.hms_ms h m sec (castI32ToI16 ms) with
          | some time =>
            .ok (some (LocalDateTime.from_date_time date time,
              if z = ['Z'] then TimeZone.UTC else TimeZone.of_hours_and_minutes zh zm))
          | none => .ok none
        | some date, none =>
          match LocalTime.hms 0 0 0 with
          | some time => .ok (some (LocalDateTime.from_date_time date time, TimeZone.UTC))
          | none => .ok none
        | _, _ => .ok none

/-- Modelled from the spec: the zero-padded `"YYYY-MM-DD"` formatting of a
calendar date used by the round-trip property (spec §8); defined for years
representable in four digits. -/
def digitChar : Nat → Char
  | 0 => '0'
  | 1 => '1'
  | 2 => '2'
  | 3 => '3'
  | 4 => '4'
  | 5 => '5'
  | 6 => '6'
  | 7 => '7'
  | 8 => '8'
  | _ => '9'

/-- Zero-padded two-digit decimal representation (for `n ≤ 99`). -/
def pad2 (n : Nat) : List Char := [digitChar (n / 10 % 10), digitChar (n % 10)]

/-- Zero-padded four-digit decimal representation (for `n ≤ 9999`). -/
def pad4 (n : Nat) : List Char :=
  [digitChar (n / 1000 % 10), digitChar (n / 100 % 10), digitChar (n / 10 % 10),
    digitChar (n % 10)]

/-- Modelled from the spec: format `(year, month, day)` as the zero-padded
string `"YYYY-MM-DD"` (spec §8's round-trip formatting). -/
def formatYmd (y : Int) (m : Month) (d : Int) : String :=
  String.mk (pad4 y.toNat ++ '-' :: (pad2 m.to_one.toNat ++ '-' :: pad2 d.toNat))

/- ## Capture-shape predicates (used to state what the matcher produces) -/

/-- An optional capture holding exactly two ASCII digits. -/
def SD2 (o : Option (List Char)) : Prop :=
  ∀ t, o = some t → t.length = 2 ∧ t.all isD = true

/-- An optional capture holding one to nine ASCII digits (the fractional
group). -/
def SDfrac (o : Option (List Char)) : Prop :=
  ∀ t, o = some t → 1 ≤ t.length ∧ t.length ≤ 9 ∧ t.all isD = true

/-- An optional capture holding the literal `"Z"`. -/
def SZcap (o : Option (List Char)) : Prop :=
  ∀ t, o = some t → t = ['Z']

/-- An optional capture holding a sign and two ASCII digits (the signed
zone-hour group). -/
def SZH (o : Option (List Char)) : Prop :=
  ∀ t, o = some t → ∃ c a b, t = [c, a, b] ∧ (c = '+' ∨ c = '-') ∧ isD a = true ∧ isD b = true

/- ## Helper lemmas: digit strings and numeric conversion -/

theorem isD_spec {c : Char} (h : isD c = true) : 48 ≤ c.toNat ∧ c.toNat ≤ 57 := by
  simpa [isD] using h

theorem digVal_le {c : Char} (h : isD c = true) : digVal c ≤ 9 := by
  have := isD_spec h
  unfold digVal
  omega

theorem isD_ne_plus {c : Char} (h : isD c = true) : ¬ c = '+' := by
  intro e
  subst e
  exact absurd h (by decide)

theorem isD_ne_minus {c : Char} (h : isD c = true) : ¬ c = '-' := by
  intro e
  subst e
  exact absurd h (by decide)

theorem digitsToNatAux_lt :
    ∀ l : List Char, l.all isD = true → ∀ a : Nat, digitsToNatAux l a < (a + 1) * 10 ^ l.length := by
  intro l
  induction l with
  | nil =>
    intro _ a
    simp only [digitsToNatAux, List.length_nil, pow_zero, mul_one]
    omega
  | cons c r ih =>
    intro hall a
    rw [List.all_cons, Bool.and_eq_true] at hall
    have h9 : digVal c ≤ 9 := digVal_le hall.1
    have h1 := ih hall.2 (10 * a + digVal c)
    have hmn : 10 * a + digVal c + 1 ≤ (a + 1) * 10 := by omega
    have h2 : (10 * a + digVal c + 1) * 10 ^ r.length ≤ ((a + 1) * 10) * 10 ^ r.length :=
      Nat.mul_le_mul hmn (le_refl _)
    have h4 : ((a + 1) * 10) * 10 ^ r.length = (a + 1) * 10 ^ (c :: r).length := by
      rw [List.length_cons]
      ring
    simp only [digitsToNatAux]
    omega

theorem digitsToNat_lt {l : List Char} (h : l.all isD = true) : digitsToNat l < 10 ^ l.length := by
  have := digitsToNatAux_lt l h 0
  simpa [digitsToNat] using this

theorem parseIntIn_digits {lo hi : Int} {ds : List Char} (h1 : ds ≠ []) (h2 : ds.all isD = true)
    (h3 : lo ≤ 0) (h4 : (digitsToNat ds : Int) ≤ hi) :
    parseIntIn lo hi ds = some ((digitsToNat ds : Int)) := by
  cases ds with
  | nil => exact absurd rfl h1
  | cons c r =>
    have hc : isD c = true := by
      have h2' := h2
      rw [List.all_cons, Bool.and_eq_true] at h2'
      exact h2'.1
    have hp : ¬ c = '+' := isD_ne_plus hc
    have hm : ¬ c = '-' := isD_ne_minus hc
    have hpos : (0 : Int) ≤ (digitsToNat (c :: r) : Int) := Int.natCast_nonneg _
    have e1 : lo ≤ (digitsToNat (c :: r) : Int) := by omega
    have e2 : (digitsToNat (c :: r) : Int) ≤ hi := h4
    simp only [parseIntIn, if_neg hp, if_neg hm, if_neg (List.cons_ne_nil c r), if_pos h2,
      one_mul, if_pos e1, if_pos e2]

theorem parseI8_of_digits2 {t : List Char} (hl : t.length = 2) (hd : t.all isD = true) :
    parseI8 t = some ((digitsToNat t : Int)) ∧ digitsToNat t ≤ 99 := by
  have hlt : digitsToNat t < 10 ^ t.length := digitsToNat_lt hd
  rw [hl] at hlt
  norm_num at hlt
  have hne : t ≠ [] := by
    rintro rfl
    simp at hl
  exact ⟨parseIntIn_digits hne hd (by norm_num) (by omega), by omega⟩

theorem parseI32_of_fracdigits {t : List Char} (h1 : 1 ≤ t.length) (h9 : t.length ≤ 9)
    (hd : t.all isD = true) : parseI32 t = some ((digitsToNat t : Int)) := by
  have hlt : digitsToNat t < 10 ^ t.length := digitsToNat_lt hd
  have hmono : (10 : Nat) ^ t.length ≤ 10 ^ 9 := Nat.pow_le_pow_right (by norm_num) h9
  have h10 : (10 : Nat) ^ 9 = 1000000000 := by norm_num
  have hne : t ≠ [] := by
    rintro rfl
    simp at h1
  exact parseIntIn_digits hne hd (by norm_num) (by omega)

theorem parseI8_neg2 {a b : Char} (ha : isD a = true) (hb : isD b = true) :
    ∃ v, parseI8 ['-', a, b] = some v := by
  refine ⟨(-1) * (digitsToNat [a, b] : Int), ?_⟩
  have hd : ([a, b] : List Char).all isD = true := by simp [ha, hb]
  have hlt : digitsToNat [a, b] < 10 ^ ([a, b] : List Char).length := digitsToNat_lt hd
  norm_num at hlt
  have e1 : (-128 : Int) ≤ (-1) * (digitsToNat [a, b] : Int) := by omega
  have e2 : (-1) * (digitsToNat [a, b] : Int) ≤ 127 := by omega
  simp only [parseI8, parseIntIn]
  simp [hd, e1, e2]
  omega

theorem trimPlus_plus {a b : Char} (ha : isD a = true) (hb : isD b = true) :
    trimPlus ['+', a, b] = [a, b] := by
  have ha' : ¬ a = '+' := isD_ne_plus ha
  have hb' : ¬ b = '+' := isD_ne_plus hb
  simp [trimPlus, List.dropWhile, ha', hb']

theorem parseField2 {o : Option (List Char)} (h : SD2 o) :
    ∃ v, parseI8 (o.getD ['0', '0']) = some v := by
  cases o with
  | none => exact ⟨0, by decide⟩
  | some t =>
    obtain ⟨hl, hd⟩ := h t rfl
    exact ⟨_, (parseI8_of_digits2 hl hd).1⟩

theorem parseFieldMs {o : Option (List Char)} (h : SDfrac o) :
    ∃ v, parseI32 (o.getD ['0', '0', '0']) = some v := by
  cases o with
  | none => exact ⟨0, by decide⟩
  | some t =>
    obtain ⟨h1, h9, hd⟩ := h t rfl
    exact ⟨_, parseI32_of_fracdigits h1 h9 hd⟩

theorem parseFieldZh {o : Option (List Char)} (h : SZH o) :
    ∃ v, parseI8 (trimPlus (o.getD ['+', '0', '0'])) = some v := by
  cases o with
  | none => exact ⟨0, by decide⟩
  | some t =>
    obtain ⟨c, a, b, rfl, hsign, ha, hb⟩ := h t rfl
    rcases hsign with rfl | rfl
    · rw [Option.getD_some, trimPlus_plus ha hb]
      exact ⟨_, (parseI8_of_digits2 (by simp) (by simp [ha, hb])).1⟩
    · rw [Option.getD_some]
      have : trimPlus ['-', a, b] = ['-', a, b] := by
        have hb' : ¬ b = '+' := isD_ne_plus hb
        simp [trimPlus, List.dropWhile, hb']
      rw [this]
      exact parseI8_neg2 ha hb

/- ## Helper lemmas: shapes of the captures produced by the matchers -/

theorem oalt_eq_some {α : Type} {a b : Option α} {v : α} (h : oalt a b = some v) :
    a = some v ∨ b = some v := by
  cases a with
  | some x => exact Or.inl h
  | none => exact Or.inr h

theorem omap_some {α β : Type} {f : α → β} {o : Option α} {b : β} (h : o.map f = some b) :
    ∃ a, o = some a ∧ f a = b := by
  cases o with
  | none => exact Option.noConfusion h
  | some a => exact ⟨a, rfl, by injection h⟩

theorem take2d_some {s t r} (h : take2d s = some (t, r)) : t.length = 2 ∧ t.all isD = true := by
  unfold take2d at h
  split at h
  · rename_i a b r2
    split at h
    · rename_i hab
      rw [Bool.and_eq_true] at hab
      injection h with h'
      injection h' with h1 h2
      subst h1
      simp [hab.1, hab.2]
    · exact Option.noConfusion h
  · exact Option.noConfusion h

theorem take4d_some {s t r} (h : take4d s = some (t, r)) : t.length = 4 ∧ t.all isD = true := by
  unfold take4d at h
  split at h
  · rename_i a b c d r2
    split at h
    · rename_i hab
      simp only [Bool.and_eq_true] at hab
      injection h with h'
      injection h' with h1 h2
      subst h1
      simp [hab.1.1.1, hab.1.1.2, hab.1.2, hab.2]
    · exact Option.noConfusion h
  · exact Option.noConfusion h

theorem zmTail_shape {s : List Char} {o : Option (List Char)} (h : zmTail s = some o) : SD2 o := by
  unfold zmTail at h
  split at h
  · rename_i t heq
    injection h with h'
    subst h'
    intro u hu
    injection hu with hu'
    subst hu'
    exact take2d_some heq
  · split at h
    · injection h with h'
      subst h'
      intro u hu
      exact absurd hu (by simp)
    · exact Option.noConfusion h

theorem colonZm_shape {s : List Char} {o : Option (List Char)} (h : colonZm s = some o) :
    SD2 o := by
  unfold colonZm at h
  split at h
  · rcases oalt_eq_some h with h1 | h1
    · exact zmTail_shape h1
    · exact zmTail_shape h1
  · exact zmTail_shape h

theorem zoneTail_shape {s : List Char} {p : Option (List Char) × Option (List Char)}
    (h : zoneTail s = some p) : SZH p.1 ∧ SD2 p.2 := by
  unfold zoneTail at h
  rcases oalt_eq_some h with h1 | h1
  · split at h1
    · rename_i c a b r
      split at h1
      · rename_i hcond
        simp only [Bool.and_eq_true, Bool.or_eq_true, decide_eq_true_eq] at hcond
        obtain ⟨g7, hg7, hp⟩ := omap_some h1
        subst hp
        constructor
        · intro t ht
          injection ht with ht'
          subst ht'
          exact ⟨c, a, b, rfl, hcond.1.1, hcond.1.2, hcond.2⟩
        · intro t ht
          exact colonZm_shape hg7 t ht
      · exact Option.noConfusion h1
    · exact Option.noConfusion h1
  · obtain ⟨g7, hg7, hp⟩ := omap_some h1
    subst hp
    exact ⟨fun t ht => absurd ht (by simp), fun t ht => colonZm_shape hg7 t ht⟩

theorem zonePart_shape {s : List Char}
    {q : Option (List Char) × Option (List Char) × Option (List Char)}
    (h : zonePart s = some q) : SZcap q.1 ∧ SZH q.2.1 ∧ SD2 q.2.2 := by
  unfold zonePart at h
  split at h
  · injection h with h'
    subst h'
    refine ⟨?_, ?_, ?_⟩
    · intro t ht
      injection ht with ht'
      exact ht'.symm
    · intro t ht
      exact absurd ht (by simp)
    · intro t ht
      exact absurd ht (by simp)
  · obtain ⟨p, hp, hq⟩ := omap_some h
    subst hq
    obtain ⟨h1, h2⟩ := zoneTail_shape hp
    exact ⟨fun t ht => absurd ht (by simp), h1, h2⟩

theorem splitsDigits_mem :
    ∀ (n : Nat) (s : List Char) (p : List Char × List Char),
      p ∈ splitsDigits n s → p.1.all isD = true ∧ p.1.length ≤ n := by
  intro n
  induction n with
  | zero =>
    intro s p hp
    simp [splitsDigits] at hp
    subst hp
    simp
  | succ n ih =>
    intro s p hp
    cases s with
    | nil =>
      simp [splitsDigits] at hp
      subst hp
      simp
    | cons c rest =>
      simp only [splitsDigits] at hp
      split at hp
      · rename_i hc
        rw [List.mem_append] at hp
        rcases hp with hp | hp
        · rw [List.mem_map] at hp
          obtain ⟨q, hq, rfl⟩ := hp
          obtain ⟨h1, h2⟩ := ih rest q hq
          refine ⟨by simp [hc, h1], ?_⟩
          simp only [List.length_cons]
          omega
        · simp at hp
          subst hp
          simp
      · simp at hp
        subst hp
        simp

theorem firstSome_eq_some {α β : Type} :
    ∀ (l : List α) (f : α → Option β) (b : β),
      firstSome l f = some b → ∃ a, a ∈ l ∧ f a = some b := by
  intro l f b
  induction l with
  | nil =>
    intro h
    simp [firstSome] at h
  | cons x xs ih =>
    intro h
    unfold firstSome at h
    rcases oalt_eq_some h with h1 | h1
    · exact ⟨x, List.mem_cons_self x xs, h1⟩
    · obtain ⟨a, ha, hfa⟩ := ih h1
      exact ⟨a, List.mem_cons_of_mem x ha, hfa⟩

theorem fracZone_shape {s : List Char}
    {q : Option (List Char) × Option (List Char) × Option (List Char) × Option (List Char)}
    (h : fracZone s = some q) : SDfrac q.1 ∧ SZcap q.2.1 ∧ SZH q.2.2.1 ∧ SD2 q.2.2.2 := by
  unfold fracZone at h
  obtain ⟨p, hmem, hfp⟩ := firstSome_eq_some _ _ _ h
  obtain ⟨hall, hlen⟩ := splitsDigits_mem 9 s p hmem
  by_cases hnil : p.1 = []
  · rw [if_pos hnil] at hfp
    obtain ⟨z, hz, hq⟩ := omap_some hfp
    subst hq
    obtain ⟨z1, z2, z3⟩ := zonePart_shape hz
    exact ⟨fun t ht => absurd ht (by simp), z1, z2, z3⟩
  · rw [if_neg hnil] at hfp
    obtain ⟨z, hz, hq⟩ := omap_some hfp
    subst hq
    obtain ⟨z1, z2, z3⟩ := zonePart_shape hz
    refine ⟨?_, z1, z2, z3⟩
    intro t ht
    injection ht with ht'
    subst ht'
    have hpos : 0 < p.1.length := List.length_pos.mpr hnil
    exact ⟨hpos, hlen, hall⟩

theorem dotFrac_shape {s : List Char}
    {q : Option (List Char) × Option (List Char) × Option (List Char) × Option (List Char)}
    (h : dotFrac s = some q) : SDfrac q.1 ∧ SZcap q.2.1 ∧ SZH q.2.2.1 ∧ SD2 q.2.2.2 := by
  unfold dotFrac at h
  split at h
  · rcases oalt_eq_some h with h1 | h1
    · exact fracZone_shape h1
    · exact fracZone_shape h1
  · exact fracZone_shape h

theorem secFracZone_shape {s : List Char}
    {q : Option (List Char) × Option (List Char) × Option (List Char) × Option (List Char) ×
      Option (List Char)}
    (h : secFracZone s = some q) :
    SD2 q.1 ∧ SDfrac q.2.1 ∧ SZcap q.2.2.1 ∧ SZH q.2.2.2.1 ∧ SD2 q.2.2.2.2 := by
  unfold secFracZone at h
  rcases oalt_eq_some h with h1 | h1
  · split at h1
    · rename_i t r heq
      obtain ⟨d, hd, hq⟩ := omap_some h1
      subst hq
      obtain ⟨f1, f2, f3, f4⟩ := dotFrac_shape hd
      refine ⟨?_, f1, f2, f3, f4⟩
      intro u hu
      injection hu with hu'
      subst hu'
      exact take2d_some heq
    · exact Option.noConfusion h1
  · obtain ⟨z, hz, hq⟩ := omap_some h1
    subst hq
    obtain ⟨z1, z2, z3⟩ := zonePart_shape hz
    exact ⟨fun t ht => absurd ht (by simp), fun t ht => absurd ht (by simp), z1, z2, z3⟩

theorem colonSecFrac_shape {s : List Char}
    {q : Option (List Char) × Option (List Char) × Option (List Char) × Option (List Char) ×
      Option (List Char)}
    (h : colonSecFrac s = some q) :
    SD2 q.1 ∧ SDfrac q.2.1 ∧ SZcap q.2.2.1 ∧ SZH q.2.2.2.1 ∧ SD2 q.2.2.2.2 := by
  unfold colonSecFrac at h
  split at h
  · rcases oalt_eq_some h with h1 | h1
    · exact secFracZone_shape h1
    · exact secFracZone_shape h1
  · exact secFracZone_shape h

theorem minTail_shape {s : List Char}
    {q : Option (List Char) × Option (List Char) × Option (List Char) × Option (List Char) ×
      Option (List Char) × Option (List Char)}
    (h : minTail s = some q) :
    SD2 q.1 ∧ SD2 q.2.1 ∧ SDfrac q.2.2.1 ∧ SZcap q.2.2.2.1 ∧ SZH q.2.2.2.2.1 ∧
      SD2 q.2.2.2.2.2 := by
  unfold minTail at h
  rcases oalt_eq_some h with h1 | h1
  · split at h1
    · rename_i t r heq
      obtain ⟨d, hd, hq⟩ := omap_some h1
      subst hq
      obtain ⟨f1, f2, f3, f4, f5⟩ := colonSecFrac_shape hd
      refine ⟨?_, f1, f2, f3, f4, f5⟩
      intro u hu
      injection hu with hu'
      subst hu'
      exact take2d_some heq
    · exact Option.noConfusion h1
  · obtain ⟨d, hd, hq⟩ := omap_some h1
    subst hq
    obtain ⟨f1, f2, f3, f4, f5⟩ := colonSecFrac_shape hd
    exact ⟨fun t ht => absurd ht (by simp), f1, f2, f3, f4, f5⟩

theorem colonMin_shape {s : List Char}
    {q : Option (List Char) × Option (List Char) × Option (List Char) × Option (List Char) ×
      Option (List Char) × Option (List Char)}
    (h : colonMin s = some q) :
    SD2 q.1 ∧ SD2 q.2.1 ∧ SDfrac q.2.2.1 ∧ SZcap q.2.2.2.1 ∧ SZH q.2.2.2.2.1 ∧
      SD2 q.2.2.2.2.2 := by
  unfold colonMin at h
  split at h
  · rcases oalt_eq_some h with h1 | h1
    · exact minTail_shape h1
    · exact minTail_shape h1
  · exact minTail_shape h

theorem matchTuple_shape {s : List Char} {g1 g2 g3 g4 g5 g6 g7}
    (h : matchTuple s = some (g1, g2, g3, g4, g5, g6, g7)) :
    g1.length = 2 ∧ g1.all isD = true ∧ SD2 g2 ∧ SD2 g3 ∧ SDfrac g4 ∧ SZcap g5 ∧ SZH g6 ∧
      SD2 g7 := by
  unfold matchTuple at h
  split at h
  · rename_i t r heq
    obtain ⟨q, hq, heq2⟩ := omap_some h
    simp only [Prod.mk.injEq] at heq2
    obtain ⟨rfl, rfl⟩ := heq2
    obtain ⟨m1, m2, m3, m4, m5, m6⟩ := colonMin_shape hq
    obtain ⟨l2, la⟩ := take2d_some heq
    exact ⟨l2, la, m1, m2, m3, m4, m5, m6⟩
  · exact Option.noConfusion h

/- ## Helper lemmas: totality of the tuple extractor over matching strings -/

theorem tuple_ok_of_match {s : String} {caps} (h : matchTuple s.data = some caps) :
    ∃ t7, parse_iso_8601_tuple s = PResult.ok (some t7) := by
  obtain ⟨g1, g2, g3, g4, g5, g6, g7⟩ := caps
  obtain ⟨l2, la, s2, s3, sf, sz, szh, s7⟩ := matchTuple_shape h
  obtain ⟨hv1, _⟩ := parseI8_of_digits2 l2 la
  obtain ⟨v2, hv2⟩ := parseField2 s2
  obtain ⟨v3, hv3⟩ := parseField2 s3
  obtain ⟨v4, hv4⟩ := parseFieldMs sf
  obtain ⟨v5, hv5⟩ := parseFieldZh szh
  obtain ⟨v6, hv6⟩ := parseField2 s7
  refine ⟨((digitsToNat g1 : Int), v2, v3, v4, v5, v6, g5.getD ['_']), ?_⟩
  simp only [parse_iso_8601_tuple, h, hv1, hv2, hv3, hv4, hv5, hv6]

theorem tuple_no_panic (s : String) : parse_iso_8601_tuple s ≠ PResult.panic := by
  intro hpan
  cases hm : matchTuple s.data with
  | none =>
    unfold parse_iso_8601_tuple at hpan
    rw [hm] at hpan
    exact PResult.noConfusion hpan
  | some caps =>
    obtain ⟨t7, ht⟩ := tuple_ok_of_match hm
    rw [ht] at hpan
    exact PResult.noConfusion hpan

/- ## Helper lemmas: splitting -/

theorem splitAtT_noT : ∀ l : List Char, 'T' ∉ l → splitAtT l = (l, []) := by
  intro l
  induction l with
  | nil => intro _; rfl
  | cons c r ih =>
    intro h
    rw [List.mem_cons, not_or] at h
    have hc : ¬ c = 'T' := fun e => h.1 e.symm
    simp [splitAtT, hc, ih h.2]

/- ## Helper lemmas: formatting digits and the calendar table -/

theorem digitChar_isD {k : Nat} (h : k < 10) : isD (digitChar k) = true := by
  interval_cases k <;> decide

theorem digitChar_val {k : Nat} (h : k < 10) : digVal (digitChar k) = k := by
  interval_cases k <;> decide

theorem pad2_all (n : Nat) : (pad2 n).all isD = true := by
  have h1 := digitChar_isD (Nat.mod_lt (n / 10) (by norm_num))
  have h2 := digitChar_isD (Nat.mod_lt n (by norm_num))
  simp [pad2, h1, h2]

theorem pad4_all (n : Nat) : (pad4 n).all isD = true := by
  have h1 := digitChar_isD (Nat.mod_lt (n / 1000) (by norm_num))
  have h2 := digitChar_isD (Nat.mod_lt (n / 100) (by norm_num))
  have h3 := digitChar_isD (Nat.mod_lt (n / 10) (by norm_num))
  have h4 := digitChar_isD (Nat.mod_lt n (by norm_num))
  simp [pad4, h1, h2, h3, h4]

theorem digitsToNat_pad2 {n : Nat} (h : n ≤ 99) : digitsToNat (pad2 n) = n := by
  have e1 := digitChar_val (Nat.mod_lt (n / 10) (by norm_num))
  have e2 := digitChar_val (Nat.mod_lt n (by norm_num))
  simp only [digitsToNat, pad2, digitsToNatAux, e1, e2]
  omega

theorem digitsToNat_pad4 {n : Nat} (h : n ≤ 9999) : digitsToNat (pad4 n) = n := by
  have e1 := digitChar_val (Nat.mod_lt (n / 1000) (by norm_num))
  have e2 := digitChar_val (Nat.mod_lt (n / 100) (by norm_num))
  have e3 := digitChar_val (Nat.mod_lt (n / 10) (by norm_num))
  have e4 := digitChar_val (Nat.mod_lt n (by norm_num))
  simp only [digitsToNat, pad4, digitsToNatAux, e1, e2, e3, e4]
  omega

theorem days_in_month_pos (m : Month) (leap : Bool) : 1 ≤ m.days_in_month leap := by
  cases m <;> cases leap <;> decide

theorem days_in_month_le (m : Month) (leap : Bool) : m.days_in_month leap ≤ 31 := by
  cases m <;> cases leap <;> decide

theorem to_one_range (m : Month) : 1 ≤ m.to_one ∧ m.to_one ≤ 12 := by
  cases m <;> decide

theorem from_one_to_one (m : Month) : Month.from_one m.to_one = some m := by
  cases m <;> rfl

theorem take2d_cons {a b : Char} (ha : isD a = true) (hb : isD b = true) (r : List Char) :
    take2d (a :: b :: r) = some ([a, b], r) := by
  simp [take2d, ha, hb]

theorem take4d_cons {a b c d : Char} (ha : isD a = true) (hb : isD b = true)
    (hc : isD c = true) (hd : isD d = true) (r : List Char) :
    take4d (a :: b :: c :: d :: r) = some ([a, b, c, d], r) := by
  simp [take4d, ha, hb, hc, hd]

theorem matchYmd_format (y mo d : Nat) :
    matchYmd (pad4 y ++ '-' :: (pad2 mo ++ '-' :: pad2 d)) = some (pad4 y, pad2 mo, pad2 d) := by
  have hA := digitChar_isD (Nat.mod_lt (y / 1000) (by norm_num))
  have hB := digitChar_isD (Nat.mod_lt (y / 100) (by norm_num))
  have hC := digitChar_isD (Nat.mod_lt (y / 10) (by norm_num))
  have hD := digitChar_isD (Nat.mod_lt y (by norm_num))
  have hE := digitChar_isD (Nat.mod_lt (mo / 10) (by norm_num))
  have hF := digitChar_isD (Nat.mod_lt mo (by norm_num))
  have hG := digitChar_isD (Nat.mod_lt (d / 10) (by norm_num))
  have hH := digitChar_isD (Nat.mod_lt d (by norm_num))
  simp only [pad4, pad2, List.cons_append, List.nil_append]
  simp only [matchYmd, take4d_cons hA hB hC hD, skipDash, take2d_cons hE hF,
    take2d_cons hG hH]

/- ## Claim theorems -/

/-- C3: for every input string, `split_iso_8601` returns a result (it never
fails) consisting of exactly two segments; if the input contains no `'T'`
the first segment is the whole input and the second is empty; and
`split_iso_8601 "2014-12-25T02:56:40" = some ("2014-12-25", "02:56:40")`. -/
theorem c3_split_total (s : String) :
    (split_iso_8601 s).isSome = true ∧
    ('T' ∉ s.data → split_iso_8601 s = some (s, "")) ∧
    split_iso_8601 "2014-12-25T02:56:40" = some ("2014-12-25", "02:56:40") := by
  refine ⟨rfl, ?_, rfl⟩
  intro hT
  unfold split_iso_8601
  rw [splitAtT_noT s.data hT]

/-- Witness for C3 at the concrete `'T'`-free input `"2014-12-25"`. -/
theorem c3_split_total_witness : split_iso_8601 "2014-12-25" = some ("2014-12-25", "") :=
  (c3_split_total "2014-12-25").2.1 (by decide)

/-- C7: `is_valid` on any `YearMonthDay` and leap flag is `true` exactly
when `1 ≤ day ≤ days_in_month`, and at the boundaries it is `false` at
day 0, `true` at `day_count`, and `false` at `day_count + 1`. -/
theorem c7_is_valid_boundary (y : Int) (m : Month) (d : Int) (leap : Bool) :
    (YearMonthDay.is_valid ⟨y, m, d⟩ leap = true ↔ 1 ≤ d ∧ d ≤ m.days_in_month leap) ∧
    YearMonthDay.is_valid ⟨y, m, 0⟩ leap = false ∧
    YearMonthDay.is_valid ⟨y, m, m.days_in_month leap⟩ leap = true ∧
    YearMonthDay.is_valid ⟨y, m, m.days_in_month leap + 1⟩ leap = false := by
  have h1 := days_in_month_pos m leap
  refine ⟨?_, ?_, ?_, ?_⟩
  · simp [YearMonthDay.is_valid]
  · simp [YearMonthDay.is_valid]
  · simp [YearMonthDay.is_valid]
    omega
  · simp [YearMonthDay.is_valid]

/-- Witness for C7: February 29 is valid in a leap year. -/
theorem c7_is_valid_boundary_witness :
    YearMonthDay.is_valid ⟨2020, Month.february, 29⟩ true = true :=
  (c7_is_valid_boundary 2020 Month.february 29 true).1.mpr (by decide)

/-- C8: `day_count` is `days_in_month(month, is_leap_year(year))` for every
`YearMonth` (and never fails, being a total function), and for February it
is 29 exactly in leap years and 28 otherwise. -/
theorem c8_day_count_february (y : Int) (m : Month) :
    YearMonth.day_count ⟨y, m⟩ = m.days_in_month (is_leap_year y) ∧
    (YearMonth.day_count ⟨y, Month.february⟩ = 29 ↔ is_leap_year y = true) ∧
    (is_leap_year y = false → YearMonth.day_count ⟨y, Month.february⟩ = 28) := by
  refine ⟨rfl, ?_, ?_⟩
  · unfold YearMonth.day_count Month.days_in_month
    cases is_leap_year y <;> simp
  · intro h
    unfold YearMonth.day_count Month.days_in_month
    rw [h]
    rfl

/-- Witness for C8: 1900 is not a leap year, so its February has 28 days. -/
theorem c8_day_count_february_witness : YearMonth.day_count ⟨1900, Month.february⟩ = 28 :=
  (c8_day_count_february 1900 Month.february).2.2 (by decide)

/-- C9: `parse_iso_8601_time` on the empty string returns midnight
(00:00:00), not a failure. -/
theorem c9_empty_time_midnight :
    parse_iso_8601_time "" = PResult.ok (some ⟨0, 0, 0, 0⟩) := by
  rfl

/-- C6: the shared tuple extractor is total over matching strings: it never
panics; whenever the time regex matches, every field extraction and numeric
conversion succeeds and a tuple is produced; and it returns no tuple only
when the whole string fails the grammar. -/
theorem c6_extractor_total (s : String) :
    parse_iso_8601_tuple s ≠ PResult.panic ∧
    (∀ caps, matchTuple s.data = some caps →
      ∃ t7, parse_iso_8601_tuple s = PResult.ok (some t7)) ∧
    (matchTuple s.data = none → parse_iso_8601_tuple s = PResult.ok none) := by
  refine ⟨tuple_no_panic s, fun caps h => tuple_ok_of_match h, fun h => ?_⟩
  unfold parse_iso_8601_tuple
  rw [h]

/-- Witness for C6 at a fully populated concrete time string. -/
theorem c6_extractor_total_witness :
    ∃ t7, parse_iso_8601_tuple "02:56:40.123+05:30" = PResult.ok (some t7) :=
  (c6_extractor_total "02:56:40.123+05:30").2.1
    (['0', '2'], some ['5', '6'], some ['4', '0'], some ['1', '2', '3'], none,
      some ['+', '0', '5'], some ['3', '0']) rfl

/-- C5: whenever the date segment fails to parse (the date parser returns
the absent result), `parse_iso_8601_zoned` returns the absent result,
whatever the time segment holds. -/
theorem c5_zoned_none_of_date_none (s d t : String)
    (hsplit : split_iso_8601 s = some (d, t))
    (hdate : parse_iso_8601_date d = PResult.ok none) :
    parse_iso_8601_zoned s = PResult.ok none := by
  simp only [parse_iso_8601_zoned, hsplit, hdate]
  cases htup : parse_iso_8601_tuple t with
  | panic => exact absurd htup (tuple_no_panic t)
  | ok o =>
    cases o with
    | none => rfl
    | some t7 =>
      obtain ⟨a1, a2, a3, a4, a5, a6, a7⟩ := t7
      rfl

/-- Witness for C5 at a concrete input whose date segment matches no
grammar. -/
theorem c5_zoned_none_of_date_none_witness :
    parse_iso_8601_zoned "fooTbar" = PResult.ok none :=
  c5_zoned_none_of_date_none "fooTbar" "foo" "bar" rfl rfl

/-- C1: the claim asserts that a grammar-matching but calendar-invalid date
segment makes `parse_iso_8601_date` return the absent result and never
panic; in fact the source `unwrap`s the date constructor (and the month
conversion), so such inputs panic: February 29 of the non-leap year 2015,
and month 13, both produce a panic rather than `None`. -/
theorem c1_invalid_date_panics :
    parse_iso_8601_date "2015-02-29" = PResult.panic ∧
    parse_iso_8601_date "2014-13-01" = PResult.panic := by
  exact ⟨rfl, rfl⟩

/-- C10: the fractional-second capture is parsed as a 32-bit integer but
cast to a signed 16-bit value (`as i16`) before time-of-day construction,
in both `parse_iso_8601_time` and `parse_iso_8601_zoned`; so whenever the
parsed fractional value exceeds 32767, the millisecond value handed to the
time constructor is the parsed value reduced modulo 2^16 and reinterpreted
as signed (possibly negative), never the parsed value itself. -/
theorem c10_millisecond_truncated :
    (∀ (s : String) (h m sec ms zh zm : Int) (z : List Char),
      parse_iso_8601_tuple s = PResult.ok (some (h, m, sec, ms, zh, zm, z)) →
      32767 < ms →
      parse_iso_8601_time s = PResult.ok (LocalTime.hms_ms h m sec (castI32ToI16 ms)) ∧
      (ms - castI32ToI16 ms) % 65536 = 0 ∧ -32768 ≤ castI32ToI16 ms ∧
      castI32ToI16 ms < 32768 ∧ castI32ToI16 ms ≠ ms) ∧
    (∀ (s d t : String) (date : LocalDate) (h m sec ms zh zm : Int) (z : List Char),
      split_iso_8601 s = some (d, t) →
      parse_iso_8601_date d = PResult.ok (some date) →
      parse_iso_8601_tuple t = PResult.ok (some (h, m, sec, ms, zh, zm, z)) →
      32767 < ms →
      parse_iso_8601_zoned s = PResult.ok
        ((LocalTime.hms_ms h m sec (castI32ToI16 ms)).map (fun time =>
          (LocalDateTime.from_date_time date time,
            if z = ['Z'] then TimeZone.UTC else TimeZone.of_hours_and_minutes zh zm)))) := by
  have harith : ∀ ms : Int, 32767 < ms →
      (ms - castI32ToI16 ms) % 65536 = 0 ∧ -32768 ≤ castI32ToI16 ms ∧
      castI32ToI16 ms < 32768 ∧ castI32ToI16 ms ≠ ms := by
    intro ms hms
    simp only [castI32ToI16]
    split <;> omega
  constructor
  · intro s h m sec ms zh zm z htup hgt
    have hne : ¬ s = "" := by
      rintro rfl
      have h0 : parse_iso_8601_tuple "" = PResult.ok none := rfl
      rw [h0] at htup
      injection htup with h1
      exact Option.noConfusion h1
    refine ⟨?_, harith ms hgt⟩
    simp only [parse_iso_8601_time, if_neg hne, htup]
  · intro s d t date h m sec ms zh zm z hsplit hdate htup hgt
    simp only [parse_iso_8601_zoned, hsplit, hdate, htup]
    cases hlt : LocalTime.hms_ms h m sec (castI32ToI16 ms) with
    | none => rfl
    | some time => rfl

/-- Witness for C10: a fractional value of 65536 wraps to millisecond 0. -/
theorem c10_millisecond_truncated_witness :
    parse_iso_8601_time "02:56:40.00065536" =
      PResult.ok (LocalTime.hms_ms 2 56 40 (castI32ToI16 65536)) ∧
    (65536 - castI32ToI16 65536) % 65536 = 0 ∧ -32768 ≤ castI32ToI16 65536 ∧
    castI32ToI16 65536 < 32768 ∧ castI32ToI16 65536 ≠ 65536 :=
  c10_millisecond_truncated.1 "02:56:40.00065536" 2 56 40 65536 0 0 ['_'] rfl (by decide)

/-- C4: when both segments parse, `parse_iso_8601_zoned` resolves the zone
to UTC exactly when the literal `Z` marker was captured, and otherwise to a
fixed offset built from the (defaulted) signed zone hour and zone minute;
in particular the two concrete examples of the spec hold. -/
theorem c4_zone_resolution :
    (∀ (s d t : String) (date : LocalDate) (h m sec ms zh zm : Int) (z : List Char),
      split_iso_8601 s = some (d, t) →
      parse_iso_8601_date d = PResult.ok (some date) →
      parse_iso_8601_tuple t = PResult.ok (some (h, m, sec, ms, zh, zm, z)) →
      ∀ time, LocalTime.hms_ms h m sec (castI32ToI16 ms) = some time →
      parse_iso_8601_zoned s = PResult.ok (some (LocalDateTime.from_date_time date time,
        if z = ['Z'] then TimeZone.UTC else TimeZone.of_hours_and_minutes zh zm))) ∧
    parse_iso_8601_zoned "2014-12-25T02:56:40Z" =
      PResult.ok (some (⟨⟨2014, Month.december, 25⟩, ⟨2, 56, 40, 0⟩⟩, TimeZone.UTC)) ∧
    parse_iso_8601_zoned "2014-12-25T02:56:40+05:30" =
      PResult.ok (some (⟨⟨2014, Month.december, 25⟩, ⟨2, 56, 40, 0⟩⟩,
        TimeZone.of_hours_and_minutes 5 30)) := by
  refine ⟨?_, rfl, rfl⟩
  intro s d t date h m sec ms zh zm z hsplit hdate htup time htime
  simp only [parse_iso_8601_zoned, hsplit, hdate, htup, htime]

/-- Witness for C4: the offset example applied through the general rule. -/
theorem c4_zone_resolution_witness :
    parse_iso_8601_zoned "2014-12-25T02:56:40+05:30" =
      PResult.ok (some (LocalDateTime.from_date_time ⟨2014, Month.december, 25⟩ ⟨2, 56, 40, 0⟩,
        TimeZone.of_hours_and_minutes 5 30)) :=
  c4_zone_resolution.1 "2014-12-25T02:56:40+05:30" "2014-12-25" "02:56:40+05:30"
    ⟨2014, Month.december, 25⟩ 2 56 40 0 5 30 ['_'] rfl rfl rfl ⟨2, 56, 40, 0⟩ rfl

/-- C2: round trip — formatting any valid calendar date with a
four-digit-representable year as the zero-padded `"YYYY-MM-DD"` string and
parsing it back yields exactly the original (year, month, day) triple. -/
theorem c2_round_trip (y : Int) (m : Month) (d : Int)
    (hy0 : 0 ≤ y) (hy : y ≤ 9999) (hd1 : 1 ≤ d)
    (hd2 : d ≤ m.days_in_month (is_leap_year y)) :
    parse_iso_8601_date (formatYmd y m d) = PResult.ok (some ⟨y, m, d⟩) := by
  have hdm := days_in_month_le m (is_leap_year y)
  have hto := to_one_range m
  have hYn : y.toNat ≤ 9999 := by omega
  have hMn : m.to_one.toNat ≤ 99 := by omega
  have hDn : d.toNat ≤ 99 := by omega
  have hdata : (formatYmd y m d).data =
      pad4 y.toNat ++ '-' :: (pad2 m.to_one.toNat ++ '-' :: pad2 d.toNat) := rfl
  have hmatch := matchYmd_format y.toNat m.to_one.toNat d.toNat
  have hy64 : parseI64 (pad4 y.toNat) = some y := by
    have hb : (digitsToNat (pad4 y.toNat) : Int) ≤ 9223372036854775807 := by
      rw [digitsToNat_pad4 hYn]
      omega
    unfold parseI64
    rw [parseIntIn_digits (by simp [pad4]) (pad4_all y.toNat) (by norm_num) hb,
      digitsToNat_pad4 hYn, Int.toNat_of_nonneg hy0]
  have hm8 : parseI8 (pad2 m.to_one.toNat) = some m.to_one := by
    have hb : (digitsToNat (pad2 m.to_one.toNat) : Int) ≤ 127 := by
      rw [digitsToNat_pad2 hMn]
      omega
    unfold parseI8
    rw [parseIntIn_digits (by simp [pad2]) (pad2_all _) (by norm_num) hb,
      digitsToNat_pad2 hMn, Int.toNat_of_nonneg (by omega)]
  have hd8 : parseI8 (pad2 d.toNat) = some d := by
    have hb : (digitsToNat (pad2 d.toNat) : Int) ≤ 127 := by
      rw [digitsToNat_pad2 hDn]
      omega
    unfold parseI8
    rw [parseIntIn_digits (by simp [pad2]) (pad2_all _) (by norm_num) hb,
      digitsToNat_pad2 hDn, Int.toNat_of_nonneg (by omega)]
  have hnew : LocalDate.new y m d = some ⟨y, m, d⟩ := by
    unfold LocalDate.new
    rw [if_pos ⟨hd1, hd2⟩]
  simp only [parse_iso_8601_date, hdata, hmatch, hy64, hm8, hd8, from_one_to_one m, hnew]

/-- Witness for C2 at the spec's example date 1985-04-12. -/
theorem c2_round_trip_witness :
    parse_iso_8601_date (formatYmd 1985 Month.april 12) =
      PResult.ok (some ⟨1985, Month.april, 12⟩) :=
  c2_round_trip 1985 Month.april 12 (by decide) (by decide) (by decide) (by decide)
